import Mathlib

/-!
Verification of the Elo rating engine of pc_mouseparty.

The embedding models pc_mouseparty/pc_mouseparty/rank/rank.py and the
final-standings aggregation of pc_mouseparty/rank/elo_score.py.

Modelling conventions:
* Python floats are idealised as real numbers.  The builtin round of
  Python 3 (round half to even on the decimal value) is modelled by
  pyRound below.
* A Python dict (insertion ordered) is modelled as an association list
  in insertion order; a defaultdict read that inserts the default for a
  missing key is ddGet, a write is ddSet (an existing key keeps its
  position, a new key is appended).
* The sorted builtin with a key and reverse set, used by the ranking
  function, is a stable descending sort; it is modelled by
  List.insertionSort with the relation ratingDescOrder, which places an
  element before every later element whose rating is not larger.
-/

namespace PCMouseparty

section MapOps

variable {K : Type} {V : Type} [DecidableEq K]

/-- First binding of a key in an association list, as in a Python dict. -/
def find : List (K × V) → K → Option V
  | [], _ => none
  | p :: t, k => if p.1 = k then some p.2 else find t k

/-- Read with a default, without mutating the list. -/
def lookupD (m : List (K × V)) (k : K) (d : V) : V :=
  (find m k).getD d

/-- defaultdict read: returns the stored value, inserting the default
at the end of the insertion order when the key is missing. -/
def ddGet (m : List (K × V)) (k : K) (d : V) : V × List (K × V) :=
  match find m k with
  | some v => (v, m)
  | none => (d, m ++ [(k, d)])

/-- dict write: an existing key keeps its position in the insertion
order, a missing key is appended at the end. -/
def ddSet : List (K × V) → K → V → List (K × V)
  | [], k, v => [(k, v)]
  | p :: t, k, v => if p.1 = k then (k, v) :: t else p :: ddSet t k v

/-- The key set of the dict, in insertion order. -/
def keys (m : List (K × V)) : List K := m.map Prod.fst

end MapOps

/-- Round half to even on a real number, as the Python 3 builtin round
does on the value of its argument. -/
noncomputable def rhe (x : ℝ) : ℤ :=
  if x - Int.floor x < 1 / 2 then Int.floor x
  else if (1 : ℝ) / 2 < x - Int.floor x then Int.floor x + 1
  else if Even (Int.floor x) then Int.floor x else Int.floor x + 1

/-- Python round(x, number_of_decimals), idealised over the reals. -/
noncomputable def pyRound (number_of_decimals : ℕ) (x : ℝ) : ℝ :=
  (rhe (x * 10 ^ number_of_decimals) : ℝ) / 10 ^ number_of_decimals

/-- rank.py line 47: the expected score of the subject against the
agent, 1 / (1 + 10 ^ ((agent - subject) / 400)). -/
noncomputable def expected_score (subject_elo_rating agent_elo_rating : ℝ) : ℝ :=
  1 / (1 + (10 : ℝ) ^ ((agent_elo_rating - subject_elo_rating) / 400))

/-- rank.py calculate_elo_rating (lines 19 to 50).  The source defaults
are k_factor = 20, score = 1, number_of_decimals = 1; call sites pass
them explicitly here. -/
noncomputable def calculate_elo_rating (subject_elo_rating agent_elo_rating : ℝ)
    (k_factor : ℝ) (score : ℝ) (number_of_decimals : ℕ) : ℝ :=
  pyRound number_of_decimals
    (subject_elo_rating + k_factor * (score - expected_score subject_elo_rating agent_elo_rating))

/-- The rating update exactly as the specification words it:
round(subjectRating + kFactor * (outcomeScore - 1 / (1 + 10 ^ ((opponentRating
- subjectRating) / 400))), decimals). -/
noncomputable def specUpdate (subjectRating opponentRating outcomeScore kFactor : ℝ)
    (decimals : ℕ) : ℝ :=
  pyRound decimals
    (subjectRating + kFactor *
      (outcomeScore - 1 / (1 + (10 : ℝ) ^ ((opponentRating - subjectRating) / 400))))

/-- rank.py update_elo_rating (lines 53 to 103).  When no dict is given
a fresh one is created; the two current ratings are read first (each
read inserting the default for an unseen key), then the winner entry and
the loser entry are written, both computed from the two snapshot values.
Source defaults: default 1000, winner_score 1, loser_score 0, and
calculate_elo_rating defaults for the remaining parameters. -/
noncomputable def update_elo_rating {K : Type} [DecidableEq K] (winner_id loser_id : K)
    (id_to_elo_rating : Option (List (K × ℝ))) (default_elo_rating : ℝ)
    (winner_score loser_score : ℝ) (k_factor : ℝ)
    (number_of_decimals : ℕ) : List (K × ℝ) :=
  let m := id_to_elo_rating.getD []
  let pw := ddGet m winner_id default_elo_rating
  let pl := ddGet pw.2 loser_id default_elo_rating
  let m2 := ddSet pl.2 winner_id
    (calculate_elo_rating pw.1 pl.1 k_factor winner_score number_of_decimals)
  ddSet m2 loser_id
    (calculate_elo_rating pl.1 pw.1 k_factor loser_score number_of_decimals)

/-- The same update written in the other order, loser entry first, both
still computed from the snapshot values; used to state that the order of
the two writes does not matter. -/
noncomputable def update_elo_rating_loser_first {K : Type} [DecidableEq K]
    (winner_id loser_id : K) (id_to_elo_rating : Option (List (K × ℝ)))
    (default_elo_rating : ℝ) (winner_score loser_score : ℝ) (k_factor : ℝ)
    (number_of_decimals : ℕ) : List (K × ℝ) :=
  let m := id_to_elo_rating.getD []
  let pl := ddGet m loser_id default_elo_rating
  let pw := ddGet pl.2 winner_id default_elo_rating
  let m2 := ddSet pw.2 loser_id
    (calculate_elo_rating pl.1 pw.1 k_factor loser_score number_of_decimals)
  ddSet m2 winner_id
    (calculate_elo_rating pw.1 pl.1 k_factor winner_score number_of_decimals)

/-- The comparison used by the ranking sort: x comes before y when the
rating of y is not larger.  With a stable sort this is exactly the
Python sorted call with the rating as key and reverse set. -/
def ratingDescOrder {K : Type} (x y : K × ℝ) : Prop := y.2 ≤ x.2

noncomputable instance {K : Type} : DecidableRel (@ratingDescOrder K) :=
  fun x y => inferInstanceAs (Decidable (y.2 ≤ x.2))

/-- Zero-based index of the first occurrence of a key in a list (length
when absent; the source list.index call is only reached for present
keys). -/
def rankIndex {K : Type} [DecidableEq K] (k : K) : List K → ℕ
  | [] => 0
  | a :: t => if a = k then 0 else rankIndex k t + 1

/-- rank.py get_ranking_from_elo_rating_dictionary (lines 106 to 132):
sort the dict items by rating descending with a stable sort, then the
one-based position of the subject. -/
noncomputable def get_ranking_from_elo_rating_dictionary {K : Type} [DecidableEq K]
    (input_dict : List (K × ℝ)) (subject_id : K) : ℕ :=
  rankIndex subject_id ((List.insertionSort ratingDescOrder input_dict).map Prod.fst) + 1

/-- One cell of the tie column.  nanC is a missing value (NaN), boolC a
boolean, strC an arbitrary non-numeric object whose only relevant
attribute is its truth value (for a string, whether it is nonempty). -/
inductive TieCell : Type
  | nanC : TieCell
  | boolC : Bool → TieCell
  | strC : Bool → TieCell
deriving DecidableEq

/-- One input row: winner id cell, loser id cell (missing modelled as
none) and the tie cell.  Metadata passthrough columns are not modelled;
no claim depends on them. -/
structure Row : Type where
  winner : Option ℕ
  loser : Option ℕ
  tie : TieCell
deriving DecidableEq

/-- Truth-value coercion of a cell, as bool() in Python; a float NaN is
truthy. -/
def truthy : TieCell → Bool
  | TieCell.nanC => true
  | TieCell.boolC b => b
  | TieCell.strC t => t

def isNanCell : TieCell → Bool
  | TieCell.nanC => true
  | _ => false

/-- pandas astype(bool) on the tie column.  An all-NaN column is a
float column and coerces (NaN becomes True); a column of objects
coerces each cell by truth value; a column holding a NaN together with
non-NaN objects is an object column and raises, modelled as none. -/
def astypeBool (cells : List TieCell) : Option (List Bool) :=
  if cells.any isNanCell && cells.any (fun c => !(isNanCell c)) then none
  else some (cells.map truthy)

inductive DriverErr : Type
  | stopIteration : DriverErr
  | attributeError : DriverErr
deriving DecidableEq

/-- One output row of the ledger, keyed in the source by the consumed
row index; fields as written in rank.py lines 229 to 251. -/
structure Entry : Type where
  total_match_number : ℕ
  subject_id : Option ℕ
  agent_id : Option ℕ
  original_elo_rating : ℝ
  updated_elo_rating : ℝ
  win_draw_loss : ℝ
  subject_ranking : ℕ
  agent_ranking : ℕ
  pairing_index : ℕ

/-- The winner and loser scores for one processed row (rank.py lines
202 to 216).  With a tie column, a coerced boolean decides tie or
non-tie; with the raw column (coercion failed and was caught), a NaN
cell means non-tie and any other raw cell has no any() attribute and
raises AttributeError. -/
noncomputable def tieScores (tieCol : Bool) (cell : TieCell) (coerced : Option Bool) :
    Except DriverErr (ℝ × ℝ) :=
  if tieCol then
    match coerced with
    | some b => if b then Except.ok (1 / 2, 1 / 2) else Except.ok (1, 0)
    | none =>
      match cell with
      | TieCell.nanC => Except.ok (1, 0)
      | _ => Except.error DriverErr.attributeError
  else Except.ok (1, 0)

/-- The rows the loop iterates over: the whole-column astype(bool)
attempt (reverted silently when it raises), then dropna on the winner
column only.  Each kept row carries its winner id, loser cell, raw tie
cell and coerced tie value. -/
def validRows (tieCol : Bool) (rows : List Row) :
    List (ℕ × Option ℕ × TieCell × Option Bool) :=
  let tagged : List (Row × Option Bool) :=
    match (if tieCol then astypeBool (rows.map Row.tie) else none) with
    | some bs => List.zipWith (fun r b => (r, some b)) rows bs
    | none => rows.map (fun r => (r, none))
  tagged.filterMap (fun rc => rc.1.winner.map (fun w => (w, rc.1.loser, rc.1.tie, rc.2)))

/-- The loop of rank.py lines 192 to 256: read both current ratings
(inserting defaults), resolve the scores, update the map, then draw two
row indexes from the shared iterator over range(0, 99999) (raising
StopIteration when exhausted) and emit the winner-perspective and
loser-perspective entries with post-update ranks. -/
noncomputable def go (tieCol : Bool) :
    List (ℕ × Option ℕ × TieCell × Option Bool) → List (Option ℕ × ℝ) → ℕ → ℕ →
    Except DriverErr (List Entry)
  | [], _, _, _ => Except.ok []
  | vr :: rest, m, matchNo, idx =>
    let wk : Option ℕ := some vr.1
    let lk : Option ℕ := vr.2.1
    let pw := ddGet m wk 1000
    let pl := ddGet pw.2 lk 1000
    match tieScores tieCol vr.2.2.1 vr.2.2.2 with
    | Except.error e => Except.error e
    | Except.ok sc =>
      let m3 := update_elo_rating wk lk (some pl.2) 1000 sc.1 sc.2 20 1
      if idx < 99999 then
        if idx + 1 < 99999 then
          let ew : Entry := ⟨matchNo, wk, lk, pw.1, lookupD m3 wk 1000, sc.1,
            get_ranking_from_elo_rating_dictionary m3 wk,
            get_ranking_from_elo_rating_dictionary m3 lk, 0⟩
          let el : Entry := ⟨matchNo, lk, wk, pl.1, lookupD m3 lk 1000, sc.2,
            get_ranking_from_elo_rating_dictionary m3 lk,
            get_ranking_from_elo_rating_dictionary m3 wk, 1⟩
          match go tieCol rest m3 (matchNo + 1) (idx + 2) with
          | Except.error e => Except.error e
          | Except.ok entries => Except.ok (ew :: el :: entries)
        else Except.error DriverErr.stopIteration
      else Except.error DriverErr.stopIteration

/-- rank.py iterate_elo_rating_calculation_for_dataframe (lines 135 to
258), for a stream of rows; tieCol says whether a tie column was
given. -/
noncomputable def iterate_elo_rating_calculation_for_dataframe
    (tieCol : Bool) (rows : List Row) : Except DriverErr (List Entry) :=
  go tieCol (validRows tieCol rows) [] 1 0

/-- One step of the rating-map evolution of the loop, with the running
row index and a flag that goes false once the loop has failed (the two
default-inserting reads happen before the tie resolution, and the map
update happens before the index draws, exactly as in the source). -/
noncomputable def mapStateStep (tieCol : Bool)
    (s : List (Option ℕ × ℝ) × ℕ × Bool)
    (vr : ℕ × Option ℕ × TieCell × Option Bool) :
    List (Option ℕ × ℝ) × ℕ × Bool :=
  if s.2.2 then
    let pw := ddGet s.1 (some vr.1) 1000
    let pl := ddGet pw.2 vr.2.1 1000
    match tieScores tieCol vr.2.2.1 vr.2.2.2 with
    | Except.error _ => (pl.2, s.2.1, false)
    | Except.ok sc =>
      let m3 := update_elo_rating (some vr.1) vr.2.1 (some pl.2) 1000 sc.1 sc.2 20 1
      if s.2.1 < 99999 then
        if s.2.1 + 1 < 99999 then (m3, s.2.1 + 2, true)
        else (m3, s.2.1 + 1, false)
      else (m3, s.2.1, false)
  else s

/-- The rating map after the first n processed rows of the stream. -/
noncomputable def mapAfter (tieCol : Bool) (rows : List Row) (n : ℕ) :
    List (Option ℕ × ℝ) :=
  (((validRows tieCol rows).take n).foldl (mapStateStep tieCol) ([], 0, true)).1

/-- The property claim C6 asserts of the driver: in every ledger it
returns, every winner-perspective entry ranks the winner no worse than
the loser. -/
def winnerNotWorseRanked (tieCol : Bool) (rows : List Row) : Prop :=
  ∀ es, iterate_elo_rating_calculation_for_dataframe tieCol rows = Except.ok es →
    ∀ e ∈ es, e.pairing_index = 0 → e.subject_ranking ≤ e.agent_ranking

/-- One row of the concatenated all-cages ledger (all_elo_df in
elo_score.py), restricted to the columns the final standings use. -/
structure AggEntry : Type where
  subject_id : ℕ
  cage : ℕ
  updated_elo_rating : ℝ

/-- One row of the final standings table (id_to_elo_df). -/
structure Standing : Type where
  subject_id : ℕ
  final_elo_rating : ℝ
  cage : ℕ
  rank : ℕ

/-- elo_score.py line 139: enumerate(sorted(unique subject ids)) over
the whole concatenated ledger. -/
def uniqueSortedSubjects (ledger : List AggEntry) : List ℕ :=
  List.insertionSort (fun a b => a ≤ b) ((ledger.map AggEntry.subject_id).dedup)

/-- elo_score.py lines 140 to 151: one record per distinct subject id,
taking the rating and the cage of the last ledger row of that subject
in the whole concatenated frame (iloc[-1]); the rank column is filled
afterwards.  The getD branch is never reached: every listed subject has
at least one ledger row. -/
noncomputable def finalStandingsBase (ledger : List AggEntry) : List Standing :=
  (uniqueSortedSubjects ledger).map (fun s =>
    let es := ledger.filter (fun e => e.subject_id = s)
    let last := es.getLast?.getD ⟨s, 0, 0⟩
    ⟨s, last.updated_elo_rating, last.cage, 0⟩)

/-- pandas rank(dense, ascending False) within a cage: the number of
distinct strictly larger final ratings among the standings of that
cage. -/
noncomputable def denseRankHigher (standings : List Standing) (cage : ℕ) (rating : ℝ) : ℕ :=
  ((standings.filter
      (fun u => u.cage = cage ∧ rating < u.final_elo_rating)).map
    Standing.final_elo_rating).dedup.length

/-- elo_score.py lines 154 to 167: the standings table with the dense
rank per cage.  The final sort by cage and subject id only reorders
rows and is omitted. -/
noncomputable def finalStandings (ledger : List AggEntry) : List Standing :=
  (finalStandingsBase ledger).map (fun t =>
    ⟨t.subject_id, t.final_elo_rating, t.cage,
      denseRankHigher (finalStandingsBase ledger) t.cage t.final_elo_rating + 1⟩)

section RoundLemmas

theorem rhe_intCast (n : ℤ) : rhe ((n : ℝ)) = n := by
  unfold rhe
  rw [Int.floor_intCast]
  norm_num

theorem pyRound_intCast (d : ℕ) (n : ℤ) : pyRound d ((n : ℝ)) = (n : ℝ) := by
  unfold pyRound
  have h : ((n : ℝ) * 10 ^ d) = (((n * 10 ^ d : ℤ)) : ℝ) := by push_cast; ring
  rw [h, rhe_intCast]
  have hp : ((10 : ℝ) ^ d) ≠ 0 := by positivity
  push_cast
  field_simp

end RoundLemmas

section EloValueLemmas

theorem expected_score_self (x : ℝ) : expected_score x x = 1 / 2 := by
  unfold expected_score
  rw [sub_self, zero_div, Real.rpow_zero]
  norm_num

theorem calculate_elo_rating_self (x kf sc : ℝ) (d : ℕ) :
    calculate_elo_rating x x kf sc d = pyRound d (x + kf * (sc - 1 / 2)) := by
  unfold calculate_elo_rating
  rw [expected_score_self]

theorem calc_win_1000 : calculate_elo_rating 1000 1000 20 1 1 = 1010 := by
  rw [calculate_elo_rating_self]
  have h : (1000 : ℝ) + 20 * (1 - 1 / 2) = (((1010 : ℤ)) : ℝ) := by norm_num
  rw [h, pyRound_intCast]
  norm_num

theorem calc_loss_1000 : calculate_elo_rating 1000 1000 20 0 1 = 990 := by
  rw [calculate_elo_rating_self]
  have h : (1000 : ℝ) + 20 * (0 - 1 / 2) = (((990 : ℤ)) : ℝ) := by norm_num
  rw [h, pyRound_intCast]
  norm_num

theorem calc_tie_1000 : calculate_elo_rating 1000 1000 20 (1 / 2) 1 = 1000 := by
  rw [calculate_elo_rating_self]
  have h : (1000 : ℝ) + 20 * (1 / 2 - 1 / 2) = (((1000 : ℤ)) : ℝ) := by norm_num
  rw [h, pyRound_intCast]
  norm_num

end EloValueLemmas

section FindLemmas

variable {K : Type} {V : Type} [DecidableEq K]

theorem find_ddSet (m : List (K × V)) (k k2 : K) (v : V) :
    find (ddSet m k v) k2 = if k2 = k then some v else find m k2 := by
  induction m with
  | nil =>
    by_cases h : k2 = k
    · subst h; simp [ddSet, find]
    · simp [ddSet, find, h, Ne.symm h]
  | cons p t ih =>
    by_cases hp : p.1 = k
    · by_cases h : k2 = k
      · subst h; simp [ddSet, find, hp]
      · simp [ddSet, find, hp, h, Ne.symm h]
    · by_cases h2 : p.1 = k2
      · have hk : ¬ k2 = k := fun hh => hp (h2.trans hh)
        simp [ddSet, find, hp, h2, hk]
      · simp [ddSet, find, hp, h2, ih]

theorem ddGet_fst (m : List (K × V)) (k : K) (d : V) :
    (ddGet m k d).1 = lookupD m k d := by
  cases h : find m k <;> simp [ddGet, lookupD, h]

theorem find_append (m1 m2 : List (K × V)) (k : K) :
    find (m1 ++ m2) k =
      match find m1 k with
      | some v => some v
      | none => find m2 k := by
  induction m1 with
  | nil => simp [find]
  | cons p t ih =>
    by_cases h : p.1 = k <;> simp [find, h, ih]

theorem find_ddGet_snd_self (m : List (K × V)) (k : K) (d : V) :
    find ((ddGet m k d).2) k = some (lookupD m k d) := by
  cases h : find m k with
  | some v => simp [ddGet, lookupD, h]
  | none => simp [ddGet, lookupD, h, find_append, find]

theorem find_ddGet_snd_ne (m : List (K × V)) (k k2 : K) (d : V) (h : k2 ≠ k) :
    find ((ddGet m k d).2) k2 = find m k2 := by
  cases hf : find m k with
  | some v => simp [ddGet, hf]
  | none =>
    simp only [ddGet, hf, find_append]
    cases hf2 : find m k2 with
    | some v => simp
    | none => simp [find, Ne.symm h]

theorem lookupD_ddGet_snd_ne (m : List (K × V)) (k k2 : K) (d d2 : V) (h : k2 ≠ k) :
    lookupD ((ddGet m k d).2) k2 d2 = lookupD m k2 d2 := by
  simp [lookupD, find_ddGet_snd_ne m k k2 d h]

theorem update_elo_rating_find (m : List (K × ℝ)) (w l : K) (dflt ws ls kf : ℝ)
    (d : ℕ) (hwl : w ≠ l) (k : K) :
    find (update_elo_rating w l (some m) dflt ws ls kf d) k =
      if k = l then
        some (calculate_elo_rating (lookupD m l dflt) (lookupD m w dflt) kf ls d)
      else if k = w then
        some (calculate_elo_rating (lookupD m w dflt) (lookupD m l dflt) kf ws d)
      else find m k := by
  have hlw : l ≠ w := Ne.symm hwl
  simp only [update_elo_rating, Option.getD_some]
  rw [find_ddSet, find_ddSet, ddGet_fst m w dflt, ddGet_fst (ddGet m w dflt).2 l dflt,
    lookupD_ddGet_snd_ne m w l dflt dflt hlw]
  by_cases hk : k = l
  · simp [hk]
  · by_cases hk2 : k = w
    · simp [hk, hk2]
    · simp [hk, hk2, find_ddGet_snd_ne _ _ _ _ hk, find_ddGet_snd_ne _ _ _ _ hk2]

theorem update_elo_rating_loser_first_find (m : List (K × ℝ)) (w l : K)
    (dflt ws ls kf : ℝ) (d : ℕ) (hwl : w ≠ l) (k : K) :
    find (update_elo_rating_loser_first w l (some m) dflt ws ls kf d) k =
      if k = w then
        some (calculate_elo_rating (lookupD m w dflt) (lookupD m l dflt) kf ws d)
      else if k = l then
        some (calculate_elo_rating (lookupD m l dflt) (lookupD m w dflt) kf ls d)
      else find m k := by
  have hlw : l ≠ w := Ne.symm hwl
  simp only [update_elo_rating_loser_first, Option.getD_some]
  rw [find_ddSet, find_ddSet, ddGet_fst m l dflt, ddGet_fst (ddGet m l dflt).2 w dflt,
    lookupD_ddGet_snd_ne m l w dflt dflt hwl]
  by_cases hk : k = w
  · simp [hk]
  · by_cases hk2 : k = l
    · simp [hk, hk2]
    · simp [hk, hk2, find_ddGet_snd_ne _ _ _ _ hk, find_ddGet_snd_ne _ _ _ _ hk2]

end FindLemmas

/-- claim C2: both new ratings are computed from the pre-contest
snapshot of the two ratings (the loser update sees the pre-contest
winner rating), and writing winner first or loser first gives the same
rating map. -/
theorem claim_C2 {K : Type} [DecidableEq K] (m : List (K × ℝ)) (w l : K)
    (dflt ws ls kf : ℝ) (d : ℕ) (hwl : w ≠ l) :
    lookupD (update_elo_rating w l (some m) dflt ws ls kf d) w dflt =
      calculate_elo_rating (lookupD m w dflt) (lookupD m l dflt) kf ws d ∧
    lookupD (update_elo_rating w l (some m) dflt ws ls kf d) l dflt =
      calculate_elo_rating (lookupD m l dflt) (lookupD m w dflt) kf ls d ∧
    ∀ k : K, lookupD (update_elo_rating w l (some m) dflt ws ls kf d) k dflt =
      lookupD (update_elo_rating_loser_first w l (some m) dflt ws ls kf d) k dflt := by
  refine ⟨?_, ?_, ?_⟩
  · rw [lookupD, update_elo_rating_find m w l dflt ws ls kf d hwl w]
    simp [hwl]
  · rw [lookupD, update_elo_rating_find m w l dflt ws ls kf d hwl l]
    simp
  · intro k
    rw [lookupD, lookupD, update_elo_rating_find m w l dflt ws ls kf d hwl k,
      update_elo_rating_loser_first_find m w l dflt ws ls kf d hwl k]
    by_cases hk : k = l
    · have : k ≠ w := by rw [hk]; exact Ne.symm hwl
      simp [hk, this, Ne.symm hwl]
    · by_cases hk2 : k = w <;> simp [hk, hk2, hwl]

/-- witness for claim C2 at a concrete input. -/
theorem claim_C2_witness :
    lookupD (update_elo_rating (1 : ℕ) 2 (some []) 1000 1 0 20 1) 1 1000 =
      calculate_elo_rating (lookupD ([] : List (ℕ × ℝ)) 1 1000)
        (lookupD ([] : List (ℕ × ℝ)) 2 1000) 20 1 1 :=
  (claim_C2 [] 1 2 1000 1 0 20 1 (by decide)).1

/-- claim C10: the single-contest update changes at most the winner and
loser entries; every other key keeps exactly the entry it had before
(same presence and same value), on the mapping it was given. -/
theorem claim_C10 {K : Type} [DecidableEq K] (m : List (K × ℝ)) (w l k : K)
    (dflt ws ls kf : ℝ) (d : ℕ) (hkw : k ≠ w) (hkl : k ≠ l) :
    find (update_elo_rating w l (some m) dflt ws ls kf d) k = find m k := by
  simp only [update_elo_rating, Option.getD_some]
  rw [find_ddSet, find_ddSet, if_neg hkl, if_neg hkw,
    find_ddGet_snd_ne _ _ _ _ hkl, find_ddGet_snd_ne _ _ _ _ hkw]

/-- witness for claim C10 at a concrete input. -/
theorem claim_C10_witness :
    find (update_elo_rating (1 : ℕ) 2 (some [(5, (1200 : ℝ))]) 1000 1 0 20 1) 5 =
      find [(5, (1200 : ℝ))] 5 :=
  claim_C10 [(5, (1200 : ℝ))] 1 2 5 1000 1 0 20 1 (by decide) (by decide)

section RankLemmas

variable {K : Type} [DecidableEq K]

theorem mem_of_find_some {m : List (K × ℝ)} {k : K} {v : ℝ}
    (h : find m k = some v) : (k, v) ∈ m := by
  induction m with
  | nil => simp [find] at h
  | cons p t ih =>
    rcases p with ⟨a, b⟩
    by_cases hp : a = k
    · subst hp
      simp [find] at h
      subst h
      exact List.mem_cons_self _ _
    · simp only [find, hp, if_false] at h
      exact List.mem_cons_of_mem _ (ih h)

theorem rankIndex_lt_of_rating_gt :
    ∀ (s : List (K × ℝ)), s.Pairwise ratingDescOrder → (s.map Prod.fst).Nodup →
      ∀ {w l : K} {rw2 rl2 : ℝ}, (w, rw2) ∈ s → (l, rl2) ∈ s → rl2 < rw2 →
      rankIndex w (s.map Prod.fst) < rankIndex l (s.map Prod.fst) := by
  intro s
  induction s with
  | nil => intro _ _ w l rw2 rl2 hw; simp at hw
  | cons x t ih =>
    intro hpair hnd w l rw2 rl2 hw hl hlt
    have hpt : t.Pairwise ratingDescOrder := (List.pairwise_cons.1 hpair).2
    have hhead : ∀ y ∈ t, ratingDescOrder x y := (List.pairwise_cons.1 hpair).1
    have hndt : (t.map Prod.fst).Nodup := (List.nodup_cons.1 hnd).2
    have hx1 : x.1 ∉ t.map Prod.fst := (List.nodup_cons.1 hnd).1
    by_cases hxw : x.1 = w
    · have hxl : x.1 ≠ l := by
        intro hxl
        have hxeqw : x = (w, rw2) := by
          rcases List.mem_cons.1 hw with h | h
          · exact h.symm
          · exact absurd (by simpa [hxw] using List.mem_map_of_mem Prod.fst h) hx1
        have hxeql : x = (l, rl2) := by
          rcases List.mem_cons.1 hl with h | h
          · exact h.symm
          · exact absurd (by simpa [hxl] using List.mem_map_of_mem Prod.fst h) hx1
        rw [hxeqw] at hxeql
        have hr : rw2 = rl2 := congrArg Prod.snd hxeql
        rw [hr] at hlt
        exact lt_irrefl _ hlt
      have hwl : w ≠ l := by rw [← hxw]; exact hxl
      simp [rankIndex, hxw, hwl]
    · have hwt : (w, rw2) ∈ t := by
        rcases List.mem_cons.1 hw with h | h
        · exact absurd (congrArg Prod.fst h.symm) hxw
        · exact h
      by_cases hxl : x.1 = l
      · have hxeql : x = (l, rl2) := by
          rcases List.mem_cons.1 hl with h | h
          · exact h.symm
          · exact absurd (by simpa [hxl] using List.mem_map_of_mem Prod.fst h) hx1
        have hle : rw2 ≤ x.2 := hhead _ hwt
        rw [hxeql] at hle
        exact absurd hlt (not_lt.2 hle)
      · have hlt2 : (l, rl2) ∈ t := by
          rcases List.mem_cons.1 hl with h | h
          · exact absurd (congrArg Prod.fst h.symm) hxl
          · exact h
        have hih := ih hpt hndt hwt hlt2 hlt
        simp only [List.map_cons, rankIndex, hxw, hxl, if_false]
        omega

end RankLemmas

/-- claim C6 amended: immediately after a contest the winner is ranked
strictly above the loser whenever its post-update rating is strictly
greater; when the post-update ratings are equal the stable sort keeps
the insertion order of the rating map, so the winner can be ranked
below the loser (as after mutual ties, see the counterexample). -/
theorem claim_C6_amended {K : Type} [DecidableEq K] (m : List (K × ℝ)) (w l : K)
    (rw2 rl2 : ℝ) (hnd : (keys m).Nodup) (hw : find m w = some rw2)
    (hl : find m l = some rl2) (hlt : rl2 < rw2) :
    get_ranking_from_elo_rating_dictionary m w <
      get_ranking_from_elo_rating_dictionary m l := by
  haveI : IsTotal (K × ℝ) ratingDescOrder := ⟨fun a b => le_total b.2 a.2⟩
  haveI : IsTrans (K × ℝ) ratingDescOrder :=
    ⟨fun _ _ _ hab hbc => le_trans hbc hab⟩
  have hperm := List.perm_insertionSort ratingDescOrder m
  have hsorted : (List.insertionSort ratingDescOrder m).Pairwise ratingDescOrder :=
    List.sorted_insertionSort ratingDescOrder m
  have hndm : ((List.insertionSort ratingDescOrder m).map Prod.fst).Nodup :=
    ((hperm.map Prod.fst).nodup_iff).2 hnd
  have hwmem : (w, rw2) ∈ List.insertionSort ratingDescOrder m :=
    hperm.mem_iff.2 (mem_of_find_some hw)
  have hlmem : (l, rl2) ∈ List.insertionSort ratingDescOrder m :=
    hperm.mem_iff.2 (mem_of_find_some hl)
  have hidx := rankIndex_lt_of_rating_gt _ hsorted hndm hwmem hlmem hlt
  unfold get_ranking_from_elo_rating_dictionary
  omega

/-- witness for the amended claim C6 at a concrete rating map. -/
theorem claim_C6_amended_witness :
    get_ranking_from_elo_rating_dictionary [((1 : ℕ), (1010 : ℝ)), (2, 990)] 1 <
      get_ranking_from_elo_rating_dictionary [((1 : ℕ), (1010 : ℝ)), (2, 990)] 2 := by
  refine claim_C6_amended _ 1 2 1010 990 ?_ ?_ ?_ ?_
  · simp [keys]
  · simp [find]
  · simp [find]
  · norm_num

/-- claim C1: for every pair of ratings, outcome score, k factor and
decimal count, calculate_elo_rating returns the rounded logistic Elo
update of the specification, and at ratings 1000 and 1000 with k 20 and
one decimal a win yields 1010 and a zero score yields 990. -/
theorem claim_C1 :
    (∀ (s a kf sc : ℝ) (d : ℕ),
        calculate_elo_rating s a kf sc d = specUpdate s a sc kf d) ∧
    calculate_elo_rating 1000 1000 20 1 1 = 1010 ∧
    calculate_elo_rating 1000 1000 20 0 1 = 990 := by
  refine ⟨fun s a kf sc d => ?_, calc_win_1000, calc_loss_1000⟩
  unfold calculate_elo_rating expected_score specUpdate
  rfl

/-- claim C5: for every pair of pre-contest ratings, the expected score
of the first against the second plus the expected score of the second
against the first equals one. -/
theorem claim_C5 (a b : ℝ) : expected_score a b + expected_score b a = 1 := by
  unfold expected_score
  have hx : (a - b) / 400 = -((b - a) / 400) := by ring
  rw [hx, Real.rpow_neg (by norm_num : (0 : ℝ) ≤ 10)]
  have ht : (0 : ℝ) < (10 : ℝ) ^ ((b - a) / 400) :=
    Real.rpow_pos_of_pos (by norm_num) _
  have h1 : (1 : ℝ) + (10 : ℝ) ^ ((b - a) / 400) ≠ 0 := by positivity
  have h2 : ((10 : ℝ) ^ ((b - a) / 400)) ≠ 0 := ne_of_gt ht
  field_simp
  ring

section KeysLemmas

variable {K : Type} {V : Type} [DecidableEq K]

theorem keys_subset_ddSet (m : List (K × V)) (k : K) (v : V) :
    keys m ⊆ keys (ddSet m k v) := by
  induction m with
  | nil => simp [ddSet, keys]
  | cons p t ih =>
    by_cases hp : p.1 = k
    · rw [ddSet, if_pos hp]
      simp only [keys, List.map_cons, hp]
      exact List.Subset.refl _
    · rw [ddSet, if_neg hp]
      simp only [keys, List.map_cons]
      exact List.cons_subset_cons _ ih

theorem keys_subset_ddGet (m : List (K × V)) (k : K) (d : V) :
    keys m ⊆ keys ((ddGet m k d).2) := by
  cases h : find m k with
  | some v => simp [ddGet, h]
  | none =>
    simp only [ddGet, h, keys, List.map_append]
    exact List.subset_append_left _ _

theorem keys_subset_update_elo_rating (m : List (K × ℝ)) (w l : K)
    (dflt ws ls kf : ℝ) (d : ℕ) :
    keys m ⊆ keys (update_elo_rating w l (some m) dflt ws ls kf d) := by
  simp only [update_elo_rating, Option.getD_some]
  intro a ha
  apply keys_subset_ddSet
  apply keys_subset_ddSet
  apply keys_subset_ddGet
  apply keys_subset_ddGet
  exact ha

theorem find_eq_none_of_not_mem_keys {m : List (K × V)} {k : K}
    (h : k ∉ keys m) : find m k = none := by
  induction m with
  | nil => rfl
  | cons p t ih =>
    simp only [keys, List.map_cons, List.mem_cons, not_or] at h
    rw [find, if_neg (fun he => h.1 he.symm)]
    exact ih (by simpa [keys] using h.2)

end KeysLemmas

theorem keys_subset_mapStateStep (tieCol : Bool)
    (s : List (Option ℕ × ℝ) × ℕ × Bool)
    (vr : ℕ × Option ℕ × TieCell × Option Bool) :
    keys s.1 ⊆ keys (mapStateStep tieCol s vr).1 := by
  unfold mapStateStep
  by_cases hs : s.2.2
  · rw [if_pos hs]
    cases htie : tieScores tieCol vr.2.2.1 vr.2.2.2 with
    | error e =>
      simp only [htie]
      intro a ha
      apply keys_subset_ddGet
      apply keys_subset_ddGet
      exact ha
    | ok sc =>
      simp only [htie]
      have hsub : keys s.1 ⊆ keys (update_elo_rating (some vr.1) vr.2.1
          (some ((ddGet ((ddGet s.1 (some vr.1) 1000).2) vr.2.1 1000).2)) 1000
          sc.1 sc.2 20 1) := by
        intro a ha
        apply keys_subset_update_elo_rating
        apply keys_subset_ddGet
        apply keys_subset_ddGet
        exact ha
      by_cases h1 : s.2.1 < 99999
      · by_cases h2 : s.2.1 + 1 < 99999 <;> simp [h1, h2, hsub]
      · simp [h1, hsub]
  · rw [if_neg hs]
    exact List.Subset.refl _

/-- claim C4: over one contest stream the rating map only ever gains
keys (each processed row can only add entries, never remove them), and
any subject not yet present in the map reads as the default baseline
rating 1000. -/
theorem claim_C4 (tieCol : Bool) (rows : List Row) (n : ℕ) :
    keys (mapAfter tieCol rows n) ⊆ keys (mapAfter tieCol rows (n + 1)) ∧
    ∀ k : Option ℕ, k ∉ keys (mapAfter tieCol rows n) →
      lookupD (mapAfter tieCol rows n) k 1000 = 1000 := by
  constructor
  · unfold mapAfter
    rw [List.take_succ, List.foldl_append]
    cases hnth : (validRows tieCol rows)[n]? with
    | none => simp
    | some vr =>
      simp only [Option.toList, List.foldl_cons, List.foldl_nil]
      exact keys_subset_mapStateStep tieCol _ vr
  · intro k hk
    rw [lookupD, find_eq_none_of_not_mem_keys hk]
    rfl

/-- witness for claim C4 at a concrete stream, step and key. -/
theorem claim_C4_witness :
    lookupD (mapAfter false [⟨some 1, some 2, TieCell.nanC⟩] 0) (some 5) 1000 = 1000 := by
  have h : (some 5 : Option ℕ) ∉ keys (mapAfter false [⟨some 1, some 2, TieCell.nanC⟩] 0) := by
    simp [mapAfter, keys]
  exact (claim_C4 false [⟨some 1, some 2, TieCell.nanC⟩] 0).2 (some 5) h

theorem validRows_false (rows : List Row) :
    validRows false rows =
      rows.filterMap (fun r => r.winner.map (fun w => (w, r.loser, r.tie, (none : Option Bool)))) := by
  unfold validRows
  simp only [List.filterMap_map, Bool.false_eq_true, if_false]
  rfl

/-- claim C3 amended: a row whose winner id is missing is silently
dropped by the driver (dropna on the winner column) and processing
continues with the remaining rows; it causes no failure. -/
theorem claim_C3_amended (r0 : Row) (rows : List Row) (h : r0.winner = none) :
    iterate_elo_rating_calculation_for_dataframe false (r0 :: rows) =
      iterate_elo_rating_calculation_for_dataframe false rows := by
  unfold iterate_elo_rating_calculation_for_dataframe
  rw [validRows_false, validRows_false, List.filterMap_cons, h]
  rfl

/-- witness for the amended claim C3 at a concrete row. -/
theorem claim_C3_amended_witness :
    iterate_elo_rating_calculation_for_dataframe false [⟨none, some 2, TieCell.nanC⟩] =
      iterate_elo_rating_calculation_for_dataframe false [] :=
  claim_C3_amended ⟨none, some 2, TieCell.nanC⟩ [] rfl

/-- counterexample to claim C3: a stream holding one contest with a
missing winner id makes the engine return an empty ledger with no
error, rather than fail. -/
theorem claim_C3_counterexample :
    iterate_elo_rating_calculation_for_dataframe false [⟨none, some 2, TieCell.nanC⟩] =
      Except.ok [] := by
  rw [claim_C3_amended ⟨none, some 2, TieCell.nanC⟩ [] rfl]
  rfl

theorem go_false_spec (vrs : List (ℕ × Option ℕ × TieCell × Option Bool)) :
    ∀ (m : List (Option ℕ × ℝ)) (matchNo idx : ℕ),
      (idx + 2 * vrs.length ≤ 99999 →
        ∃ es, go false vrs m matchNo idx = Except.ok es ∧ es.length = 2 * vrs.length) ∧
      (vrs ≠ [] → 99999 < idx + 2 * vrs.length →
        go false vrs m matchNo idx = Except.error DriverErr.stopIteration) := by
  induction vrs with
  | nil =>
    intro m matchNo idx
    refine ⟨fun _ => ⟨[], rfl, rfl⟩, fun hne _ => absurd rfl hne⟩
  | cons vr rest ih =>
    intro m matchNo idx
    have hts : tieScores false vr.2.2.1 vr.2.2.2 = Except.ok (1, 0) := rfl
    constructor
    · intro hle
      simp only [List.length_cons] at hle
      have h1 : idx < 99999 := by omega
      have h2 : idx + 1 < 99999 := by omega
      obtain ⟨es, hes, hlen⟩ :=
        (ih (update_elo_rating (some vr.1) vr.2.1
            (some (ddGet (ddGet m (some vr.1) 1000).2 vr.2.1 1000).2) 1000 1 0 20 1)
          (matchNo + 1) (idx + 2)).1 (by omega)
      simp only [go, hts, h1, h2, if_true, hes, List.length_cons]
      exact ⟨_, rfl, by simp [hlen]; omega⟩
    · intro _ hgt
      simp only [List.length_cons] at hgt
      by_cases h1 : idx < 99999
      · by_cases h2 : idx + 1 < 99999
        · have hrne : rest ≠ [] := by
            intro hr
            rw [hr] at hgt
            simp at hgt
            omega
          have hrec := (ih (update_elo_rating (some vr.1) vr.2.1
              (some (ddGet (ddGet m (some vr.1) 1000).2 vr.2.1 1000).2) 1000 1 0 20 1)
            (matchNo + 1) (idx + 2)).2 hrne
            (by
              have hp : 0 < rest.length := List.length_pos.2 hrne
              omega)
          simp only [go, hts, h1, h2, if_true, hrec]
        · simp only [go, hts, h1, if_true, h2, if_false]
      · simp only [go, hts, h1, if_false]

theorem length_validRows_false (rows : List Row) :
    (validRows false rows).length = (rows.filter (fun r => r.winner.isSome)).length := by
  rw [validRows_false]
  induction rows with
  | nil => rfl
  | cons r t ih =>
    cases hr : r.winner <;>
      simp [List.filterMap_cons, List.filter_cons, hr, ih]

/-- claim C9: the row-index source is the finite iterator over
range(0, 99999), so a stream with more than 49999 valid contests makes
the driver fail with StopIteration instead of returning a ledger, a
stream with at most 49999 valid contests completes with exactly two
ledger entries per contest, and any returned ledger has at most 99999
entries. -/
theorem claim_C9 (rows : List Row) :
    ((rows.filter (fun r => r.winner.isSome)).length ≤ 49999 →
      ∃ es, iterate_elo_rating_calculation_for_dataframe false rows = Except.ok es ∧
        es.length = 2 * (rows.filter (fun r => r.winner.isSome)).length) ∧
    (49999 < (rows.filter (fun r => r.winner.isSome)).length →
      iterate_elo_rating_calculation_for_dataframe false rows =
        Except.error DriverErr.stopIteration) ∧
    ∀ es, iterate_elo_rating_calculation_for_dataframe false rows = Except.ok es →
      es.length ≤ 99999 := by
  have hlen := length_validRows_false rows
  unfold iterate_elo_rating_calculation_for_dataframe
  refine ⟨?_, ?_, ?_⟩
  · intro hle
    obtain ⟨es, hes, hl⟩ := (go_false_spec (validRows false rows) [] 1 0).1 (by omega)
    exact ⟨es, hes, by omega⟩
  · intro hgt
    have hne : validRows false rows ≠ [] := by
      intro hnil
      rw [hnil] at hlen
      simp at hlen
      omega
    exact (go_false_spec (validRows false rows) [] 1 0).2 hne (by omega)
  · intro es hes
    by_cases hle : (rows.filter (fun r => r.winner.isSome)).length ≤ 49999
    · obtain ⟨es2, hes2, hl2⟩ := (go_false_spec (validRows false rows) [] 1 0).1 (by omega)
      rw [hes] at hes2
      have hq : es = es2 := by injection hes2
      have hql : es.length = es2.length := by rw [hq]
      omega
    · have hgt : 49999 < (rows.filter (fun r => r.winner.isSome)).length := by omega
      have hne : validRows false rows ≠ [] := by
        intro hnil
        rw [hnil] at hlen
        simp at hlen
        omega
      have herr := (go_false_spec (validRows false rows) [] 1 0).2 hne (by omega)
      rw [herr] at hes
      cases hes

theorem filter_replicate_of_pos {α : Type} (p : α → Bool) (a : α) (hp : p a = true)
    (n : ℕ) : (List.replicate n a).filter p = List.replicate n a := by
  induction n with
  | zero => rfl
  | succ k ih => simp [List.replicate_succ, List.filter_cons, hp, ih]

/-- witness for claim C9: a 50000-contest stream fails with
StopIteration, and a one-contest stream completes with two entries. -/
theorem claim_C9_witness :
    iterate_elo_rating_calculation_for_dataframe false
        (List.replicate 50000 ⟨some 1, some 2, TieCell.nanC⟩) =
      Except.error DriverErr.stopIteration ∧
    ∃ es, iterate_elo_rating_calculation_for_dataframe false
        [⟨some 1, some 2, TieCell.nanC⟩] = Except.ok es ∧
      es.length = 2 * (([⟨some 1, some 2, TieCell.nanC⟩] : List Row).filter
        (fun r => r.winner.isSome)).length := by
  constructor
  · refine (claim_C9 (List.replicate 50000 ⟨some 1, some 2, TieCell.nanC⟩)).2.1 ?_
    rw [filter_replicate_of_pos _ _ rfl, List.length_replicate]
    omega
  · refine (claim_C9 [⟨some 1, some 2, TieCell.nanC⟩]).1 ?_
    simp [List.filter_cons]

theorem validRows_true_of_astype_none (rows : List Row)
    (hast : astypeBool (rows.map Row.tie) = none) :
    validRows true rows = validRows false rows := by
  unfold validRows
  rw [if_pos rfl, hast]
  rfl

theorem go_eq_of_nan_cells :
    ∀ (vrs : List (ℕ × Option ℕ × TieCell × Option Bool)),
      (∀ vr ∈ vrs, vr.2.2.1 = TieCell.nanC ∧ vr.2.2.2 = none) →
      ∀ (m : List (Option ℕ × ℝ)) (matchNo idx : ℕ),
        go true vrs m matchNo idx = go false vrs m matchNo idx := by
  intro vrs
  induction vrs with
  | nil => intro _ _ _ _; rfl
  | cons vr rest ih =>
    intro hcells m matchNo idx
    have hvr := hcells vr (List.mem_cons_self _ _)
    have hts : tieScores true vr.2.2.1 vr.2.2.2 = tieScores false vr.2.2.1 vr.2.2.2 := by
      rw [hvr.1, hvr.2]
      rfl
    have hrest : ∀ vr2 ∈ rest, vr2.2.2.1 = TieCell.nanC ∧ vr2.2.2.2 = none :=
      fun vr2 h2 => hcells vr2 (List.mem_cons_of_mem _ h2)
    simp only [go, hts, ih hrest]

theorem validRows_false_cells (rows : List Row)
    (hn : ∀ r ∈ rows, r.winner.isSome = true → r.tie = TieCell.nanC) :
    ∀ vr ∈ validRows false rows, vr.2.2.1 = TieCell.nanC ∧ vr.2.2.2 = none := by
  rw [validRows_false]
  induction rows with
  | nil => intro vr h; simp at h
  | cons r t ih =>
    intro vr hvr
    rw [List.filterMap_cons] at hvr
    cases hr : r.winner with
    | none =>
      rw [hr] at hvr
      exact ih (fun r2 h2 => hn r2 (List.mem_cons_of_mem _ h2)) vr hvr
    | some w =>
      rw [hr] at hvr
      simp only [Option.map_some'] at hvr
      rcases List.mem_cons.1 hvr with h | h
      · have htie : r.tie = TieCell.nanC := hn r (List.mem_cons_self _ _) (by rw [hr]; rfl)
        rw [h]
        exact ⟨htie, rfl⟩
      · exact ih (fun r2 h2 => hn r2 (List.mem_cons_of_mem _ h2)) vr h

/-- claim C7 amended: when the whole-column boolean coercion of the tie
column fails, the failure is caught silently and the raw column is
used; a NaN tie cell in a processed row is then silently treated as a
non-tie and processing continues (when every processed row has a NaN
tie cell the run is identical to a run without a tie column); only a
non-NaN raw cell in a processed row fails, with an AttributeError, and
when the coercion succeeds every value is coerced by truth value, a
truthy value (such as a nonempty string) silently becoming a tie. -/
theorem claim_C7_amended (rows : List Row)
    (hast : astypeBool (rows.map Row.tie) = none)
    (hn : ∀ r ∈ rows, r.winner.isSome = true → r.tie = TieCell.nanC) :
    iterate_elo_rating_calculation_for_dataframe true rows =
      iterate_elo_rating_calculation_for_dataframe false rows := by
  unfold iterate_elo_rating_calculation_for_dataframe
  rw [validRows_true_of_astype_none rows hast]
  exact go_eq_of_nan_cells _ (validRows_false_cells rows hn) [] 1 0

/-- witness for the amended claim C7 at a concrete stream. -/
theorem claim_C7_amended_witness :
    iterate_elo_rating_calculation_for_dataframe true
        [⟨some 1, some 2, TieCell.nanC⟩, ⟨none, some 2, TieCell.boolC true⟩] =
      iterate_elo_rating_calculation_for_dataframe false
        [⟨some 1, some 2, TieCell.nanC⟩, ⟨none, some 2, TieCell.boolC true⟩] := by
  refine claim_C7_amended _ ?_ ?_
  · decide
  · decide

/-- counterexample to claim C7: on a stream whose tie column cannot be
coerced to boolean as a whole (a NaN next to a non-NaN object, so
astype(bool) raises), the engine does not fail: the caught failure is
silently ignored, the NaN tie cell of the one processed row is treated
as a non-tie, and a complete ledger is returned. -/
theorem claim_C7_counterexample :
    astypeBool (([⟨some 1, some 2, TieCell.nanC⟩,
        ⟨none, some 2, TieCell.boolC true⟩] : List Row).map Row.tie) = none ∧
    iterate_elo_rating_calculation_for_dataframe true
        [⟨some 1, some 2, TieCell.nanC⟩, ⟨none, some 2, TieCell.boolC true⟩] =
      Except.ok [⟨1, some 1, some 2, 1000, 1010, 1, 1, 2, 0⟩,
        ⟨1, some 2, some 1, 1000, 990, 0, 2, 1, 1⟩] := by
  constructor
  · decide
  · norm_num [iterate_elo_rating_calculation_for_dataframe, validRows, astypeBool,
      isNanCell, truthy, go, tieScores, update_elo_rating, ddGet, ddSet, find, lookupD,
      get_ranking_from_elo_rating_dictionary, rankIndex, List.insertionSort,
      List.orderedInsert, ratingDescOrder, calc_win_1000, calc_loss_1000]

/-- counterexample to claim C6: after two mutual ties both subjects
hold rating 1000, the stable sort keeps the insertion order of the
rating map, and the winner-perspective entry of the second contest
ranks the winner 2 and the loser 1. -/
theorem claim_C6_counterexample :
    ¬ winnerNotWorseRanked true
        [⟨some 1, some 2, TieCell.boolC true⟩, ⟨some 2, some 1, TieCell.boolC true⟩] := by
  intro h
  have heval : iterate_elo_rating_calculation_for_dataframe true
      [⟨some 1, some 2, TieCell.boolC true⟩, ⟨some 2, some 1, TieCell.boolC true⟩] =
      Except.ok [⟨1, some 1, some 2, 1000, 1000, 1 / 2, 1, 2, 0⟩,
        ⟨1, some 2, some 1, 1000, 1000, 1 / 2, 2, 1, 1⟩,
        ⟨2, some 2, some 1, 1000, 1000, 1 / 2, 2, 1, 0⟩,
        ⟨2, some 1, some 2, 1000, 1000, 1 / 2, 1, 2, 1⟩] := by
    norm_num [iterate_elo_rating_calculation_for_dataframe, validRows, astypeBool,
      isNanCell, truthy, go, tieScores, update_elo_rating, ddGet, ddSet, find, lookupD,
      get_ranking_from_elo_rating_dictionary, rankIndex, List.insertionSort,
      List.orderedInsert, ratingDescOrder, calc_tie_1000]
  have h3 := h _ heval ⟨2, some 2, some 1, 1000, 1000, 1 / 2, 2, 1, 0⟩
    (List.mem_cons_of_mem _ (List.mem_cons_of_mem _ (List.mem_cons_self _ _))) rfl
  simp only [] at h3
  exact absurd h3 (by norm_num)

theorem denseRankHigher_finalStandings (ledger : List AggEntry) (c : ℕ) (r : ℝ) :
    denseRankHigher (finalStandings ledger) c r =
      denseRankHigher (finalStandingsBase ledger) c r := by
  unfold denseRankHigher finalStandings
  rw [List.filter_map, List.map_map]
  have hp : ((fun u : Standing => decide (u.cage = c ∧ r < u.final_elo_rating)) ∘
      (fun t : Standing => (⟨t.subject_id, t.final_elo_rating, t.cage,
        denseRankHigher (finalStandingsBase ledger) t.cage t.final_elo_rating + 1⟩ :
          Standing))) =
      (fun u : Standing => decide (u.cage = c ∧ r < u.final_elo_rating)) := rfl
  have hm : (Standing.final_elo_rating ∘
      (fun t : Standing => (⟨t.subject_id, t.final_elo_rating, t.cage,
        denseRankHigher (finalStandingsBase ledger) t.cage t.final_elo_rating + 1⟩ :
          Standing))) = Standing.final_elo_rating := rfl
  rw [hp, hm]

/-- counterexample to claim C8: a ledger in which subject 7 appears in
two cages (one row each) yields a single standing record, carrying the
rating and the cage of the last row overall, not one record per
(subject, cage) pair. -/
theorem claim_C8_counterexample :
    (finalStandings [⟨7, 1, 1010⟩, ⟨7, 2, 990⟩]).map
        (fun t => (t.subject_id, t.cage, t.final_elo_rating)) =
      [(7, 2, (990 : ℝ))] := by
  norm_num [finalStandings, finalStandingsBase, uniqueSortedSubjects, denseRankHigher,
    List.insertionSort, List.orderedInsert, List.dedup, List.filter,
    List.getLast?]

/-- claim C8 amended: the standings table has one record per distinct
subject id over the whole concatenated ledger (not per subject and
partition); the record carries the rating and the cage of the last
ledger entry of that subject overall (so a subject appearing in two
cages gets a single record attributed to the cage of its last entry),
and its rank is one plus the number of distinct strictly higher final
ratings among the standings of that same cage. -/
theorem claim_C8_amended (ledger : List AggEntry) :
    (finalStandings ledger).map Standing.subject_id = uniqueSortedSubjects ledger ∧
    ∀ t ∈ finalStandings ledger,
      ((ledger.filter (fun e => e.subject_id = t.subject_id)).map
          (fun e => (e.updated_elo_rating, e.cage))).getLast? =
        some (t.final_elo_rating, t.cage) ∧
      t.rank = denseRankHigher (finalStandings ledger) t.cage t.final_elo_rating + 1 := by
  constructor
  · have h1 : finalStandings ledger = (finalStandingsBase ledger).map
        (fun t : Standing => (⟨t.subject_id, t.final_elo_rating, t.cage,
          denseRankHigher (finalStandingsBase ledger) t.cage t.final_elo_rating + 1⟩ :
            Standing)) := rfl
    have h3 : finalStandingsBase ledger = (uniqueSortedSubjects ledger).map
        (fun s : ℕ =>
          let es := ledger.filter (fun e => e.subject_id = s)
          let last := es.getLast?.getD ⟨s, 0, 0⟩
          (⟨s, last.updated_elo_rating, last.cage, 0⟩ : Standing)) := rfl
    rw [h1, List.map_map]
    have h2 : (Standing.subject_id ∘
        (fun t : Standing => (⟨t.subject_id, t.final_elo_rating, t.cage,
          denseRankHigher (finalStandingsBase ledger) t.cage t.final_elo_rating + 1⟩ :
            Standing))) = Standing.subject_id := rfl
    rw [h2, h3, List.map_map]
    have h4 : (Standing.subject_id ∘
        (fun s : ℕ =>
          let es := ledger.filter (fun e => e.subject_id = s)
          let last := es.getLast?.getD ⟨s, 0, 0⟩
          (⟨s, last.updated_elo_rating, last.cage, 0⟩ : Standing))) = fun s : ℕ => s := rfl
    rw [h4]
    simp
  · intro t ht
    unfold finalStandings at ht
    rcases List.mem_map.1 ht with ⟨b, hb, hbt⟩
    unfold finalStandingsBase at hb
    rcases List.mem_map.1 hb with ⟨s, hs, hsb⟩
    have hsmem : s ∈ ledger.map AggEntry.subject_id := by
      have h1 : s ∈ (ledger.map AggEntry.subject_id).dedup := by
        have h0 := hs
        unfold uniqueSortedSubjects at h0
        simpa using h0
      exact List.mem_dedup.1 h1
    rcases List.mem_map.1 hsmem with ⟨e, he, hes⟩
    have hef : e ∈ ledger.filter (fun e2 => e2.subject_id = s) :=
      List.mem_filter.2 ⟨he, by simp [hes]⟩
    have hne : ledger.filter (fun e2 => e2.subject_id = s) ≠ [] :=
      List.ne_nil_of_mem hef
    have hlast : (ledger.filter (fun e2 => e2.subject_id = s)).getLast? =
        some ((ledger.filter (fun e2 => e2.subject_id = s)).getLast hne) :=
      List.getLast?_eq_getLast_of_ne_nil hne
    have ht1 : t.subject_id = b.subject_id := by rw [← hbt]
    have ht2 : t.final_elo_rating = b.final_elo_rating := by rw [← hbt]
    have ht3 : t.cage = b.cage := by rw [← hbt]
    have ht4 : t.rank =
        denseRankHigher (finalStandingsBase ledger) b.cage b.final_elo_rating + 1 := by
      rw [← hbt]
    have hb1 : b.subject_id = s := by rw [← hsb]
    have hb2 : b.final_elo_rating =
        ((ledger.filter (fun e2 => e2.subject_id = s)).getLast hne).updated_elo_rating := by
      rw [← hsb]
      show ((ledger.filter (fun e2 => e2.subject_id = s)).getLast?.getD
        (⟨s, 0, 0⟩ : AggEntry)).updated_elo_rating = _
      rw [hlast]
      rfl
    have hb3 : b.cage =
        ((ledger.filter (fun e2 => e2.subject_id = s)).getLast hne).cage := by
      rw [← hsb]
      show ((ledger.filter (fun e2 => e2.subject_id = s)).getLast?.getD
        (⟨s, 0, 0⟩ : AggEntry)).cage = _
      rw [hlast]
      rfl
    refine ⟨?_, ?_⟩
    · rw [ht1, hb1, List.getLast?_map, hlast, ht2, hb2, ht3, hb3]
      rfl
    · rw [denseRankHigher_finalStandings, ht4, ht3, ht2]

/-- witness for the amended claim C8 at a one-row ledger. -/
theorem claim_C8_amended_witness :
    ((([⟨7, 1, (1010 : ℝ)⟩] : List AggEntry).filter
        (fun e => e.subject_id = 7)).map
      (fun e => (e.updated_elo_rating, e.cage))).getLast? = some ((1010 : ℝ), 1) := by
  have heval : finalStandings [⟨7, 1, (1010 : ℝ)⟩] = [⟨7, (1010 : ℝ), 1, 1⟩] := by
    norm_num [finalStandings, finalStandingsBase, uniqueSortedSubjects, denseRankHigher,
      List.insertionSort, List.orderedInsert, List.dedup, List.filter, List.getLast?]
  have hmem : (⟨7, (1010 : ℝ), 1, 1⟩ : Standing) ∈ finalStandings [⟨7, 1, (1010 : ℝ)⟩] := by
    rw [heval]
    exact List.mem_cons_self _ _
  exact ((claim_C8_amended [⟨7, 1, (1010 : ℝ)⟩]).2 _ hmem).1

end PCMouseparty
